import Mathlib

/-!
Shallow embedding of `src/pmotool/connectors/simple_watcher.py`
(`watch_and_post`).  The filesystem, wall clock and network are oracles
supplied per poll cycle (`CycleEnv`); the loop body is transcribed as a
state machine over the in-memory `seen` set and the set of names present
in the archive ("processed") directory.  Line numbers refer to that file.
-/

namespace PMOWatcher

/-- Decidable equality of `Except` results, for evaluating the model on
concrete inputs. -/
instance {ε α : Type} [DecidableEq ε] [DecidableEq α] :
    DecidableEq (Except ε α) := fun x y =>
  match x, y with
  | .error a, .error b =>
    if h : a = b then isTrue (congrArg Except.error h)
    else isFalse (fun hh => h (by injection hh))
  | .error _, .ok _ => isFalse (fun hh => by injection hh)
  | .ok _, .error _ => isFalse (fun hh => by injection hh)
  | .ok a, .ok b =>
    if h : a = b then isTrue (congrArg Except.ok h)
    else isFalse (fun hh => h (by injection hh))

/-- A UTC wall-clock instant at second resolution, as consumed by
`datetime.utcnow().strftime('%Y%m%dT%H%M%SZ')` at line 94. -/
structure UTCTime where
  year : Nat
  month : Nat
  day : Nat
  hour : Nat
  minute : Nat
  second : Nat

/-- Zero-pad a decimal number to width `w`, as `strftime` field formatting
does. -/
def padNum (w n : Nat) : String :=
  let s := toString n
  String.mk (List.replicate (w - s.length) '0') ++ s

/-- `datetime.utcnow().strftime('%Y%m%dT%H%M%SZ')` (line 94). -/
def formatTs (t : UTCTime) : String :=
  padNum 4 t.year ++ padNum 2 t.month ++ padNum 2 t.day ++ "T" ++
    padNum 2 t.hour ++ padNum 2 t.minute ++ padNum 2 t.second ++ "Z"

/-- `os.path.join(directory, fn)` for an absolute `directory` and a bare
entry name (lines 50, 95). -/
def joinPath (d f : String) : String := d ++ "/" ++ f

/-- ASCII case of Python `str.lower`, applied characterwise (all names in
play are ASCII). -/
def lowerChar (c : Char) : Char :=
  if 65 ≤ c.toNat ∧ c.toNat ≤ 90 then Char.ofNat (c.toNat + 32) else c

/-- `f.lower().endswith('.txt')` (line 43): the last four characters of the
lowercased name are `.txt`. -/
def txtFilter (f : String) : Bool :=
  decide ((f.data.map lowerChar).reverse.take 4 = ['t', 'x', 't', '.'])

/-- `os.path.splitext(fn)[0]` (line 80) for a bare directory entry (no path
separator): split at the last dot, unless every character before that dot
is itself a dot (leading dots belong to the base name). -/
def splitextBase (fn : String) : String :=
  match fn.data.reverse.span (fun c => c != '.') with
  | (_, []) => fn
  | (_, _ :: baseRev) =>
    if baseRev.any (fun c => c != '.') then String.mk baseRev.reverse else fn

/-- A UTF-8 continuation byte. -/
def contByte (b : Nat) : Bool := decide (128 ≤ b ∧ b < 192)

/-- Strict UTF-8 decoding, sequence by sequence; the fuel argument (at
least the number of bytes left, each step consumes at least one byte)
makes the recursion structural. -/
def decodeUtf8Go : Nat → List Nat → Option (List Nat)
  | _, [] => some []
  | 0, _ :: _ => none
  | fuel + 1, b :: rest =>
    if b < 128 then
      match decodeUtf8Go fuel rest with
      | some cps => some (b :: cps)
      | none => none
    else if b < 194 then none
    else if b < 224 then
      match rest with
      | [] => none
      | b1 :: rest2 =>
        if contByte b1 then
          match decodeUtf8Go fuel rest2 with
          | some cps => some (((b - 192) * 64 + (b1 - 128)) :: cps)
          | none => none
        else none
    else if b < 240 then
      match rest with
      | b1 :: b2 :: rest3 =>
        if contByte b1 && contByte b2 then
          let cp := (b - 224) * 4096 + (b1 - 128) * 64 + (b2 - 128)
          if cp < 2048 then none
          else if 55296 ≤ cp ∧ cp < 57344 then none
          else
            match decodeUtf8Go fuel rest3 with
            | some cps => some (cp :: cps)
            | none => none
        else none
      | _ => none
    else if b < 245 then
      match rest with
      | b1 :: b2 :: b3 :: rest4 =>
        if contByte b1 && contByte b2 && contByte b3 then
          let cp := (b - 240) * 262144 + (b1 - 128) * 4096 +
            (b2 - 128) * 64 + (b3 - 128)
          if cp < 65536 ∨ 1114111 < cp then none
          else
            match decodeUtf8Go fuel rest4 with
            | some cps => some (cp :: cps)
            | none => none
        else none
      | _ => none
    else none

/-- Strict UTF-8 decoding, as performed by `open(full, 'r',
encoding='utf-8')` followed by `fh.read()` (lines 73-74): stray
continuation bytes, truncated sequences, overlong forms, surrogates and
code points above U+10FFFF are rejected. -/
def decodeUtf8 (bs : List Nat) : Option (List Nat) :=
  decodeUtf8Go bs.length bs

/-- Code-point-wise lexicographic comparison of character lists, the order
Python string comparison uses. -/
def strLtb : List Char → List Char → Bool
  | _, [] => false
  | [], _ :: _ => true
  | a :: as, b :: bs =>
    if a.toNat < b.toNat then true
    else if b.toNat < a.toNat then false
    else strLtb as bs

/-- Non-strict lexicographic order on names. -/
def strLeb (a b : String) : Bool := !(strLtb b.data a.data)

/-- Stable insertion of one name into an already sorted list. -/
def insertName (a : String) : List String → List String
  | [] => [a]
  | b :: bs => if strLeb a b then a :: b :: bs else b :: insertName a bs

/-- `sorted(files)` (line 49): stable sort by code-point order. -/
def sortNames (l : List String) : List String := l.foldr insertName []

/-- The JSON body built at lines 81-87. -/
structure Payload where
  meeting_id : String
  title : String
  transcript : String
  attendees : List String
  stage : Bool
deriving DecidableEq, Repr

/-- What `os.listdir(directory)` did this cycle: entry names, a
`FileNotFoundError` (caught at line 44), or any other exception. -/
inductive ListErr
  | fileNotFound
  | otherError
deriving DecidableEq, Repr

/-- Oracles describing what the filesystem, the wall clock and the network
do during one poll cycle, per absolute path. -/
structure CycleEnv where
  /-- result of `os.listdir(directory)` (line 43). -/
  listing : Except ListErr (List String)
  /-- outcome of `os.path.commonpath([full, processed_dir]) ==
  processed_dir` (line 53): `some b` when the comparison returns `b`,
  `none` when it raises. -/
  inProcessed : String → Option Bool
  /-- the two `os.path.getsize` probes around the 0.2 s sleep
  (lines 62-64); `none` when either probe raises. -/
  probe : String → Option (Nat × Nat)
  /-- the raw bytes of the file; `none` when the OS-level open/read raises
  (missing file, directory, permissions). -/
  bytes : String → Option (List Nat)
  /-- `requests.post(webhook_url, json=payload, ...)` for this path's
  payload: `none` a transport exception, `some c` a response with status
  code `c` (line 90). -/
  post : String → Payload → Option Nat
  /-- wall clock at the moment the archive name for this path is computed
  (line 94). -/
  timeOf : String → UTCTime
  /-- whether `os.rename(full, dest)` (line 97) succeeds; a successful
  POSIX rename silently replaces an existing destination. -/
  renameOk : String → Bool

/-- Fixed configuration of one `watch_and_post` invocation. -/
structure Config where
  dir : String
  processedDir : String
  stage : Bool

/-- Mutable process state: the in-memory `seen` set (line 37) and the file
names present in the processed directory. -/
structure St where
  seen : List String
  archive : List String
deriving DecidableEq, Repr

/-- What the loop body did with one directory entry. -/
inductive Outcome
  | skippedProcessed
  | skippedSeen
  | skippedUnstable
  | readFailed
  | transportError
  | non2xx (code : Nat)
  | archived (dest : String) (overwrote : Bool)
  | archiveFailed (dest : String)
deriving DecidableEq, Repr

/-- The entry was skipped before any stability probe, read, POST or
archive was attempted (lines 53-59). -/
def Outcome.isPreSkip : Outcome → Bool
  | .skippedProcessed => true
  | .skippedSeen => true
  | _ => false

/-- One entry of the per-cycle trace. -/
structure Event where
  fn : String
  outcome : Outcome
deriving DecidableEq, Repr

/-- `open(full, 'r', encoding='utf-8')` then `fh.read()` (lines 73-74):
fails when the OS read fails or when the bytes are not valid UTF-8. -/
def readText (env : CycleEnv) (p : String) : Option String :=
  match env.bytes p with
  | none => none
  | some bs =>
    match decodeUtf8 bs with
    | none => none
    | some cps => some (String.mk (cps.map Char.ofNat))

/-- The payload of lines 81-87. -/
def mkPayload (stage : Bool) (mid transcript : String) : Payload :=
  { meeting_id := mid, title := mid, transcript := transcript,
    attendees := [], stage := stage }

/-- `os.path.join(processed_dir, f"{meeting_id}.{ts}.txt")` (line 95). -/
def mkDest (processedDir mid ts : String) : String :=
  joinPath processedDir (mid ++ "." ++ ts ++ ".txt")

/-- `200 <= resp.status_code < 300` (line 91). -/
def is2xx (c : Nat) : Bool := decide (200 ≤ c ∧ c < 300)

/-- The archive destination the loop computes for entry `fn` handled at
time `t` (lines 94-95). -/
def destFor (cfg : Config) (fn : String) (t : UTCTime) : String :=
  mkDest cfg.processedDir (splitextBase fn) (formatTs t)

/-- The body of `for fn in sorted(files)` (lines 49-110), for one entry. -/
def processCandidate (cfg : Config) (env : CycleEnv) (st : St)
    (fn : String) : Event × St :=
  if env.inProcessed (joinPath cfg.dir fn) = some true then
    (⟨fn, .skippedProcessed⟩, st)
  else if joinPath cfg.dir fn ∈ st.seen then
    (⟨fn, .skippedSeen⟩, st)
  else
    match env.probe (joinPath cfg.dir fn) with
    | none => (⟨fn, .skippedUnstable⟩, st)
    | some (s1, s2) =>
      if s1 ≠ s2 then (⟨fn, .skippedUnstable⟩, st)
      else
        match readText env (joinPath cfg.dir fn) with
        | none =>
          (⟨fn, .readFailed⟩,
           { st with seen := joinPath cfg.dir fn :: st.seen })
        | some transcript =>
          match env.post (joinPath cfg.dir fn)
              (mkPayload cfg.stage (splitextBase fn) transcript) with
          | none => (⟨fn, .transportError⟩, st)
          | some code =>
            if is2xx code then
              if env.renameOk (joinPath cfg.dir fn) then
                (⟨fn, .archived (destFor cfg fn (env.timeOf (joinPath cfg.dir fn)))
                    (decide (destFor cfg fn (env.timeOf (joinPath cfg.dir fn)) ∈ st.archive))⟩,
                 { seen := joinPath cfg.dir fn :: st.seen,
                   archive := destFor cfg fn (env.timeOf (joinPath cfg.dir fn)) :: st.archive })
              else
                (⟨fn, .archiveFailed (destFor cfg fn (env.timeOf (joinPath cfg.dir fn)))⟩,
                 { seen := joinPath cfg.dir fn :: st.seen,
                   archive := st.archive })
            else (⟨fn, .non2xx code⟩, st)

/-- The whole `for` loop, threading state and recording a trace. -/
def runFiles (cfg : Config) (env : CycleEnv) :
    List String → St → List Event × St
  | [], st => ([], st)
  | fn :: rest, st =>
    let r := processCandidate cfg env st fn
    let rr := runFiles cfg env rest r.2
    (r.1 :: rr.1, rr.2)

/-- Lines 42-47: list the directory and keep `.txt` entries; on
`FileNotFoundError` recreate the directory and use an empty listing; any
other listing exception propagates.  The flag records whether the watch
root was recreated. -/
def listCycleFiles (env : CycleEnv) : Except ListErr (Bool × List String) :=
  match env.listing with
  | .ok fs => .ok (false, fs.filter txtFilter)
  | .error .fileNotFound => .ok (true, [])
  | .error .otherError => .error .otherError

/-- Result of one full poll cycle. -/
structure CycleResult where
  recreated : Bool
  events : List Event
  final : St
deriving DecidableEq, Repr

/-- One iteration of the `while True` loop (lines 42-112). -/
def runCycle (cfg : Config) (env : CycleEnv) (st : St) :
    Except ListErr CycleResult :=
  match listCycleFiles env with
  | .error e => .error e
  | .ok (recr, fs) =>
    let r := runFiles cfg env (sortNames fs) st
    .ok ⟨recr, r.1, r.2⟩

/-- Result of a run of consecutive poll cycles. -/
structure RunResult where
  traces : List (List Event)
  final : St
  err : Option ListErr
deriving DecidableEq, Repr

/-- Consecutive poll cycles; an uncaught listing exception ends the loop
and surfaces to the caller. -/
def run (cfg : Config) : List CycleEnv → St → RunResult
  | [], st => ⟨[], st, none⟩
  | env :: rest, st =>
    match runCycle cfg env st with
    | .error e => ⟨[], st, some e⟩
    | .ok r =>
      let rr := run cfg rest r.final
      ⟨r.events :: rr.traces, rr.final, rr.err⟩

end PMOWatcher
namespace PMOWatcher

theorem pc_fn (cfg : Config) (env : CycleEnv) (st : St) (fn : String) :
    ((processCandidate cfg env st fn).1).fn = fn := by
  unfold processCandidate
  repeat' split
  all_goals rfl

theorem pc_seen_mono (cfg : Config) (env : CycleEnv) (st : St) (fn : String)
    (x : String) (hx : x ∈ st.seen) :
    x ∈ ((processCandidate cfg env st fn).2).seen := by
  unfold processCandidate
  repeat' split
  all_goals simp_all

theorem pc_seen_sub (cfg : Config) (env : CycleEnv) (st : St) (fn : String)
    (x : String) (hx : x ∈ ((processCandidate cfg env st fn).2).seen) :
    x ∈ st.seen ∨ x = joinPath cfg.dir fn := by
  unfold processCandidate at hx
  repeat' split at hx
  all_goals simp_all
  all_goals tauto

theorem pc_seen_preskip (cfg : Config) (env : CycleEnv) (st : St) (fn : String)
    (h : joinPath cfg.dir fn ∈ st.seen) :
    ((processCandidate cfg env st fn).1).outcome.isPreSkip = true ∧
      (processCandidate cfg env st fn).2 = st := by
  unfold processCandidate
  split
  · exact ⟨rfl, rfl⟩
  · exact ⟨rfl, rfl⟩

theorem pc_not_preskip (cfg : Config) (env : CycleEnv) (st : St) (fn : String)
    (hp : ¬ env.inProcessed (joinPath cfg.dir fn) = some true)
    (hs : joinPath cfg.dir fn ∉ st.seen) :
    ((processCandidate cfg env st fn).1).outcome.isPreSkip = false := by
  unfold processCandidate
  rw [if_neg hp, if_neg hs]
  repeat' split
  all_goals rfl

theorem pc_processed_eq (cfg : Config) (env : CycleEnv) (st : St) (fn : String)
    (hp : env.inProcessed (joinPath cfg.dir fn) = some true) :
    processCandidate cfg env st fn = (⟨fn, .skippedProcessed⟩, st) := by
  unfold processCandidate
  rw [if_pos hp]

theorem pc_seen_eq (cfg : Config) (env : CycleEnv) (st : St) (fn : String)
    (hp : ¬ env.inProcessed (joinPath cfg.dir fn) = some true)
    (hs : joinPath cfg.dir fn ∈ st.seen) :
    processCandidate cfg env st fn = (⟨fn, .skippedSeen⟩, st) := by
  unfold processCandidate
  rw [if_neg hp, if_pos hs]

end PMOWatcher
namespace PMOWatcher

theorem pc_unstable_none_eq (cfg : Config) (env : CycleEnv) (st : St) (fn : String)
    (hp : ¬ env.inProcessed (joinPath cfg.dir fn) = some true)
    (hs : joinPath cfg.dir fn ∉ st.seen)
    (hprobe : env.probe (joinPath cfg.dir fn) = none) :
    processCandidate cfg env st fn = (⟨fn, .skippedUnstable⟩, st) := by
  simp only [processCandidate, if_neg hp, if_neg hs, hprobe]

theorem pc_unstable_diff_eq (cfg : Config) (env : CycleEnv) (st : St) (fn : String)
    (s1 s2 : Nat)
    (hp : ¬ env.inProcessed (joinPath cfg.dir fn) = some true)
    (hs : joinPath cfg.dir fn ∉ st.seen)
    (hprobe : env.probe (joinPath cfg.dir fn) = some (s1, s2))
    (hne : s1 ≠ s2) :
    processCandidate cfg env st fn = (⟨fn, .skippedUnstable⟩, st) := by
  simp only [processCandidate, if_neg hp, if_neg hs, hprobe, if_pos hne]

theorem pc_readfail_eq (cfg : Config) (env : CycleEnv) (st : St) (fn : String)
    (s : Nat)
    (hp : ¬ env.inProcessed (joinPath cfg.dir fn) = some true)
    (hs : joinPath cfg.dir fn ∉ st.seen)
    (hprobe : env.probe (joinPath cfg.dir fn) = some (s, s))
    (hread : readText env (joinPath cfg.dir fn) = none) :
    processCandidate cfg env st fn =
      (⟨fn, .readFailed⟩, { st with seen := joinPath cfg.dir fn :: st.seen }) := by
  simp only [processCandidate, if_neg hp, if_neg hs, hprobe, hread, ne_eq,
    not_true_eq_false, if_false, ite_self]

theorem pc_transport_eq (cfg : Config) (env : CycleEnv) (st : St) (fn : String)
    (s : Nat) (tr : String)
    (hp : ¬ env.inProcessed (joinPath cfg.dir fn) = some true)
    (hs : joinPath cfg.dir fn ∉ st.seen)
    (hprobe : env.probe (joinPath cfg.dir fn) = some (s, s))
    (hread : readText env (joinPath cfg.dir fn) = some tr)
    (hpost : env.post (joinPath cfg.dir fn)
      (mkPayload cfg.stage (splitextBase fn) tr) = none) :
    processCandidate cfg env st fn = (⟨fn, .transportError⟩, st) := by
  simp only [processCandidate, if_neg hp, if_neg hs, hprobe, hread, hpost,
    ne_eq, not_true_eq_false, if_false, ite_self]

theorem pc_non2xx_eq (cfg : Config) (env : CycleEnv) (st : St) (fn : String)
    (s : Nat) (tr : String) (code : Nat)
    (hp : ¬ env.inProcessed (joinPath cfg.dir fn) = some true)
    (hs : joinPath cfg.dir fn ∉ st.seen)
    (hprobe : env.probe (joinPath cfg.dir fn) = some (s, s))
    (hread : readText env (joinPath cfg.dir fn) = some tr)
    (hpost : env.post (joinPath cfg.dir fn)
      (mkPayload cfg.stage (splitextBase fn) tr) = some code)
    (h2 : is2xx code = false) :
    processCandidate cfg env st fn = (⟨fn, .non2xx code⟩, st) := by
  simp only [processCandidate, if_neg hp, if_neg hs, hprobe, hread, hpost, h2,
    ne_eq, not_true_eq_false, if_false, ite_self, Bool.false_eq_true]

theorem pc_renamefail_eq (cfg : Config) (env : CycleEnv) (st : St) (fn : String)
    (s : Nat) (tr : String) (code : Nat)
    (hp : ¬ env.inProcessed (joinPath cfg.dir fn) = some true)
    (hs : joinPath cfg.dir fn ∉ st.seen)
    (hprobe : env.probe (joinPath cfg.dir fn) = some (s, s))
    (hread : readText env (joinPath cfg.dir fn) = some tr)
    (hpost : env.post (joinPath cfg.dir fn)
      (mkPayload cfg.stage (splitextBase fn) tr) = some code)
    (h2 : is2xx code = true)
    (hren : env.renameOk (joinPath cfg.dir fn) = false) :
    processCandidate cfg env st fn =
      (⟨fn, .archiveFailed (destFor cfg fn (env.timeOf (joinPath cfg.dir fn)))⟩,
       { seen := joinPath cfg.dir fn :: st.seen, archive := st.archive }) := by
  simp only [processCandidate, if_neg hp, if_neg hs, hprobe, hread, hpost, h2,
    hren, ne_eq, not_true_eq_false, if_false, ite_self, if_true,
    Bool.false_eq_true]

theorem pc_archived_eq (cfg : Config) (env : CycleEnv) (st : St) (fn : String)
    (s : Nat) (tr : String) (code : Nat)
    (hp : ¬ env.inProcessed (joinPath cfg.dir fn) = some true)
    (hs : joinPath cfg.dir fn ∉ st.seen)
    (hprobe : env.probe (joinPath cfg.dir fn) = some (s, s))
    (hread : readText env (joinPath cfg.dir fn) = some tr)
    (hpost : env.post (joinPath cfg.dir fn)
      (mkPayload cfg.stage (splitextBase fn) tr) = some code)
    (h2 : is2xx code = true)
    (hren : env.renameOk (joinPath cfg.dir fn) = true) :
    processCandidate cfg env st fn =
      (⟨fn, .archived (destFor cfg fn (env.timeOf (joinPath cfg.dir fn)))
          (decide (destFor cfg fn (env.timeOf (joinPath cfg.dir fn)) ∈ st.archive))⟩,
       { seen := joinPath cfg.dir fn :: st.seen,
         archive := destFor cfg fn (env.timeOf (joinPath cfg.dir fn)) :: st.archive }) := by
  simp only [processCandidate, if_neg hp, if_neg hs, hprobe, hread, hpost, h2,
    hren, ne_eq, not_true_eq_false, if_false, ite_self, if_true]

end PMOWatcher
namespace PMOWatcher

/-- The `.txt` entries this cycle works on (empty when listing failed). -/
def cycleFilesOf (env : CycleEnv) : List String :=
  match env.listing with
  | .ok fs => fs.filter txtFilter
  | .error _ => []

theorem runFiles_seen_mono (cfg : Config) (env : CycleEnv) (l : List String)
    (st : St) (x : String) (hx : x ∈ st.seen) :
    x ∈ ((runFiles cfg env l st).2).seen := by
  induction l generalizing st with
  | nil => exact hx
  | cons fn rest ih =>
    exact ih _ (pc_seen_mono cfg env st fn x hx)

theorem runFiles_skip (cfg : Config) (env : CycleEnv) (l : List String)
    (st : St) (p : String) (hp : p ∈ st.seen) :
    ∀ ev ∈ (runFiles cfg env l st).1, joinPath cfg.dir ev.fn = p →
      ev.outcome.isPreSkip = true := by
  induction l generalizing st with
  | nil => intro ev h; exact absurd h (List.not_mem_nil ev)
  | cons fn rest ih =>
    intro ev hev hfull
    rcases List.mem_cons.mp hev with h | h
    · subst h
      rw [pc_fn] at hfull
      subst hfull
      exact (pc_seen_preskip cfg env st fn hp).1
    · exact ih _ (pc_seen_mono cfg env st fn p hp) ev h hfull

theorem runCycle_ok (cfg : Config) (env : CycleEnv) (st : St) (r : CycleResult)
    (h : runCycle cfg env st = .ok r) :
    r.events = (runFiles cfg env (sortNames (cycleFilesOf env)) st).1 ∧
      r.final = (runFiles cfg env (sortNames (cycleFilesOf env)) st).2 := by
  unfold runCycle listCycleFiles at h
  unfold cycleFilesOf
  cases hl : env.listing with
  | ok fs =>
    rw [hl] at h
    simp only [] at h
    injection h with h
    subst h
    exact ⟨rfl, rfl⟩
  | error e =>
    rw [hl] at h
    cases e with
    | fileNotFound =>
      simp only [] at h
      injection h with h
      subst h
      exact ⟨rfl, rfl⟩
    | otherError => exact Except.noConfusion h

theorem run_seen_mono (cfg : Config) (envs : List CycleEnv) (st : St)
    (x : String) (hx : x ∈ st.seen) :
    x ∈ ((run cfg envs st).final).seen := by
  induction envs generalizing st with
  | nil => exact hx
  | cons env rest ih =>
    unfold run
    cases h : runCycle cfg env st with
    | error e => exact hx
    | ok r =>
      simp only []
      refine ih _ ?_
      rw [(runCycle_ok cfg env st r h).2]
      exact runFiles_seen_mono cfg env _ st x hx

theorem run_skip (cfg : Config) (envs : List CycleEnv) (st : St) (p : String)
    (hp : p ∈ st.seen) :
    ∀ tr ∈ (run cfg envs st).traces, ∀ ev ∈ tr,
      joinPath cfg.dir ev.fn = p → ev.outcome.isPreSkip = true := by
  induction envs generalizing st with
  | nil => intro tr h; exact absurd h (List.not_mem_nil tr)
  | cons env rest ih =>
    intro tr htr ev hev hfull
    unfold run at htr
    cases h : runCycle cfg env st with
    | error e => rw [h] at htr; exact absurd htr (List.not_mem_nil tr)
    | ok r =>
      rw [h] at htr
      simp only [List.mem_cons] at htr
      rcases htr with h1 | h1
      · subst h1
        rw [(runCycle_ok cfg env st r h).1] at hev
        exact runFiles_skip cfg env _ st p hp ev hev hfull
      · refine ih ((runFiles cfg env (sortNames (cycleFilesOf env)) st).2) ?_ tr ?_ ev hev hfull
        · exact runFiles_seen_mono cfg env _ st p hp
        · rw [← (runCycle_ok cfg env st r h).2]; exact h1

end PMOWatcher
namespace PMOWatcher

theorem char_toNat_inj {a b : Char} (h : a.toNat = b.toNat) : a = b := by
  apply Char.ext
  apply UInt32.eq_of_val_eq
  apply Fin.ext
  exact h

theorem strLtb_irrefl (a : List Char) : strLtb a a = false := by
  induction a with
  | nil => rfl
  | cons c cs ih => simp [strLtb, ih]

theorem strLtb_trans (a b c : List Char) (h1 : strLtb a b = true)
    (h2 : strLtb b c = true) : strLtb a c = true := by
  induction a generalizing b c with
  | nil =>
    cases c with
    | nil =>
      cases b with
      | nil => exact h1
      | cons y ys => simp [strLtb] at h2
    | cons z zs => rfl
  | cons x xs ih =>
    cases b with
    | nil => simp [strLtb] at h1
    | cons y ys =>
      cases c with
      | nil => simp [strLtb] at h2
      | cons z zs =>
        simp only [strLtb] at h1 h2 ⊢
        rcases Nat.lt_trichotomy x.toNat y.toNat with hxy | hxy | hxy
        · rcases Nat.lt_trichotomy y.toNat z.toNat with hyz | hyz | hyz
          · rw [if_pos (Nat.lt_trans hxy hyz)]
          · rw [if_pos (by omega : x.toNat < z.toNat)]
          · rw [if_neg (by omega : ¬ y.toNat < z.toNat),
              if_pos hyz] at h2
            exact absurd h2 (by simp)
        · rw [if_neg (by omega : ¬ x.toNat < y.toNat),
            if_neg (by omega : ¬ y.toNat < x.toNat)] at h1
          rcases Nat.lt_trichotomy y.toNat z.toNat with hyz | hyz | hyz
          · rw [if_pos (by omega : x.toNat < z.toNat)]
          · rw [if_neg (by omega : ¬ y.toNat < z.toNat),
              if_neg (by omega : ¬ z.toNat < y.toNat)] at h2
            rw [if_neg (by omega : ¬ x.toNat < z.toNat),
              if_neg (by omega : ¬ z.toNat < x.toNat)]
            exact ih ys zs h1 h2
          · rw [if_neg (by omega : ¬ y.toNat < z.toNat), if_pos hyz] at h2
            exact absurd h2 (by simp)
        · rw [if_neg (by omega : ¬ x.toNat < y.toNat), if_pos hxy] at h1
          exact absurd h1 (by simp)

theorem strLtb_tri (a b : List Char) :
    strLtb a b = true ∨ a = b ∨ strLtb b a = true := by
  induction a generalizing b with
  | nil =>
    cases b with
    | nil => exact Or.inr (Or.inl rfl)
    | cons y ys => exact Or.inl rfl
  | cons x xs ih =>
    cases b with
    | nil => exact Or.inr (Or.inr rfl)
    | cons y ys =>
      rcases Nat.lt_trichotomy x.toNat y.toNat with h | h | h
      · left; simp [strLtb, h]
      · have hxy : x = y := char_toNat_inj h
        subst hxy
        rcases ih ys with h1 | h1 | h1
        · left; simp [strLtb, h1]
        · exact Or.inr (Or.inl (by rw [h1]))
        · right; right; simp [strLtb, h1]
      · right; right; simp [strLtb, h, Nat.lt_asymm h]

theorem strLeb_total (a b : String) (h : strLeb a b = false) :
    strLeb b a = true := by
  unfold strLeb at h ⊢
  rw [Bool.not_eq_false'] at h
  rw [Bool.not_eq_true']
  cases hab : strLtb a.data b.data with
  | false => rfl
  | true =>
    have := strLtb_trans _ _ _ hab h
    rw [strLtb_irrefl] at this
    exact absurd this (by simp)

theorem strLeb_trans (a b c : String) (h1 : strLeb a b = true)
    (h2 : strLeb b c = true) : strLeb a c = true := by
  unfold strLeb at h1 h2 ⊢
  rw [Bool.not_eq_true'] at h1 h2
  rw [Bool.not_eq_true']
  cases hca : strLtb c.data a.data with
  | false => rfl
  | true =>
    exfalso
    rcases strLtb_tri c.data b.data with h | h | h
    · rw [h2] at h; exact absurd h (by simp)
    · rw [← h] at h1
      rw [h1] at hca
      exact absurd hca (by simp)
    · have := strLtb_trans _ _ _ h hca
      rw [h1] at this; exact absurd this (by simp)

end PMOWatcher
namespace PMOWatcher

theorem insertName_perm (a : String) (l : List String) :
    List.Perm (insertName a l) (a :: l) := by
  induction l with
  | nil => exact List.Perm.refl _
  | cons b bs ih =>
    unfold insertName
    split
    · exact List.Perm.refl _
    · exact List.Perm.trans (List.Perm.cons b ih) (List.Perm.swap a b bs)

theorem sortNames_perm (l : List String) : List.Perm (sortNames l) l := by
  induction l with
  | nil => exact List.Perm.refl _
  | cons x xs ih =>
    exact List.Perm.trans (insertName_perm x (sortNames xs)) (List.Perm.cons x ih)

theorem insertName_pairwise (a : String) (l : List String)
    (h : l.Pairwise (fun x y => strLeb x y = true)) :
    (insertName a l).Pairwise (fun x y => strLeb x y = true) := by
  induction l with
  | nil => simp [insertName]
  | cons b bs ih =>
    rw [List.pairwise_cons] at h
    unfold insertName
    split
    · rename_i hab
      rw [List.pairwise_cons]
      constructor
      · intro x hx
        rcases List.mem_cons.mp hx with h1 | h1
        · rw [h1]; exact hab
        · exact strLeb_trans a b x hab (h.1 x h1)
      · rw [List.pairwise_cons]
        exact h
    · rename_i hab
      rw [List.pairwise_cons]
      constructor
      · intro x hx
        have := (insertName_perm a bs).mem_iff.mp hx
        rcases List.mem_cons.mp this with h1 | h1
        · rw [h1]
          exact strLeb_total a b (Bool.not_eq_true _ |>.mp hab)
        · exact h.1 x h1
      · exact ih h.2

theorem sortNames_pairwise (l : List String) :
    (sortNames l).Pairwise (fun x y => strLeb x y = true) := by
  induction l with
  | nil => exact List.Pairwise.nil
  | cons x xs ih => exact insertName_pairwise x (sortNames xs) ih

theorem sortNames_nodup (l : List String) (h : l.Nodup) :
    (sortNames l).Nodup :=
  (sortNames_perm l).symm.nodup h

theorem joinPath_inj (d : String) (a b : String)
    (h : joinPath d a = joinPath d b) : a = b := by
  unfold joinPath at h
  have hd := congrArg String.data h
  simp only [String.data_append] at hd
  rw [List.append_assoc, List.append_assoc] at hd
  have := List.append_cancel_left hd
  have := List.append_cancel_left this
  cases a; cases b
  exact congrArg String.mk this

theorem mkDest_ts_inj (p m ts1 ts2 : String)
    (h : mkDest p m ts1 = mkDest p m ts2) : ts1 = ts2 := by
  unfold mkDest joinPath at h
  have hd := congrArg String.data h
  simp only [String.data_append] at hd
  repeat rw [List.append_assoc] at hd
  have := List.append_cancel_left hd
  have := List.append_cancel_left this
  have := List.append_cancel_left this
  have := List.append_cancel_left this
  have := List.append_cancel_right this
  cases ts1; cases ts2
  exact congrArg String.mk this

end PMOWatcher
namespace PMOWatcher

theorem runFiles_map_fn (cfg : Config) (env : CycleEnv) (l : List String)
    (st : St) : ((runFiles cfg env l st).1).map Event.fn = l := by
  induction l generalizing st with
  | nil => rfl
  | cons fn rest ih =>
    simp only [runFiles, List.map_cons, pc_fn, ih]

theorem runFiles_reach (cfg : Config) (env : CycleEnv) (l : List String)
    (st : St) (seen0 : List String) (hnd : l.Nodup)
    (hseen : ∀ fn ∈ l,
      (joinPath cfg.dir fn ∈ st.seen ↔ joinPath cfg.dir fn ∈ seen0)) :
    (((runFiles cfg env l st).1).filter
        (fun ev => !ev.outcome.isPreSkip)).map Event.fn =
      l.filter (fun fn =>
        !(decide (env.inProcessed (joinPath cfg.dir fn) = some true)) &&
        !(decide (joinPath cfg.dir fn ∈ seen0))) := by
  induction l generalizing st with
  | nil => rfl
  | cons fn rest ih =>
    have hnd' := List.nodup_cons.mp hnd
    have htail : ∀ g ∈ rest,
        (joinPath cfg.dir g ∈ st.seen ↔ joinPath cfg.dir g ∈ seen0) :=
      fun g hg => hseen g (List.mem_cons_of_mem fn hg)
    by_cases hp : env.inProcessed (joinPath cfg.dir fn) = some true
    · have hr := pc_processed_eq cfg env st fn hp
      simp only [runFiles, hr]
      rw [List.filter_cons_of_neg (by simp [Outcome.isPreSkip]),
        List.filter_cons_of_neg (by simp [hp])]
      exact ih st hnd'.2 htail
    · by_cases hs : joinPath cfg.dir fn ∈ st.seen
      · have hs0 : joinPath cfg.dir fn ∈ seen0 :=
          (hseen fn (List.mem_cons_self fn rest)).mp hs
        have hr := pc_seen_eq cfg env st fn hp hs
        simp only [runFiles, hr]
        rw [List.filter_cons_of_neg (by simp [Outcome.isPreSkip]),
          List.filter_cons_of_neg (by simp [hs0])]
        exact ih st hnd'.2 htail
      · have hs0 : joinPath cfg.dir fn ∉ seen0 := fun hc =>
          hs ((hseen fn (List.mem_cons_self fn rest)).mpr hc)
        have hkeep := pc_not_preskip cfg env st fn hp hs
        have hseen' : ∀ g ∈ rest,
            (joinPath cfg.dir g ∈ ((processCandidate cfg env st fn).2).seen ↔
              joinPath cfg.dir g ∈ seen0) := by
          intro g hg
          constructor
          · intro hmem
            rcases pc_seen_sub cfg env st fn _ hmem with h1 | h1
            · exact (htail g hg).mp h1
            · exact absurd (joinPath_inj cfg.dir g fn h1 ▸ hg) hnd'.1
          · intro hmem
            exact pc_seen_mono cfg env st fn _ ((htail g hg).mpr hmem)
        simp only [runFiles]
        rw [List.filter_cons_of_pos (by simp [hkeep]),
          List.filter_cons_of_pos (by simp [hp, hs0]),
          List.map_cons, pc_fn]
        rw [ih ((processCandidate cfg env st fn).2) hnd'.2 hseen']

end PMOWatcher
namespace PMOWatcher

/-- Watcher configuration used for concrete evaluations: watch root `/w`,
archive subdirectory `/w/processed`, staging on. -/
def cfg0 : Config := ⟨"/w", "/w/processed", true⟩

/-- A cycle in which `/w/a.txt` is listed, stable, readable (bytes of
`"hi"`), the webhook answers 200, and the rename succeeds. -/
def envOK : CycleEnv where
  listing := .ok ["a.txt"]
  inProcessed := fun _ => some false
  probe := fun _ => some (5, 5)
  bytes := fun _ => some [104, 105]
  post := fun _ _ => some 200
  timeOf := fun _ => ⟨2024, 1, 15, 9, 30, 0⟩
  renameOk := fun _ => true

end PMOWatcher
namespace PMOWatcher

/-- Claim C2: for every path `p`, once `p` is in the in-memory seen set,
every event the watcher ever records for `p` in any later cycle of the
same run is a pre-probe skip — no read, POST or archive is re-attempted —
regardless of what the filesystem or network do later, and `p` stays in
the seen set. -/
theorem seen_path_never_redelivered (cfg : Config) (envs : List CycleEnv)
    (st : St) (p : String) (hp : p ∈ st.seen) :
    (∀ tr ∈ (run cfg envs st).traces, ∀ ev ∈ tr,
        joinPath cfg.dir ev.fn = p → ev.outcome.isPreSkip = true) ∧
      p ∈ ((run cfg envs st).final).seen :=
  ⟨run_skip cfg envs st p hp, run_seen_mono cfg envs st p hp⟩

/-- Witness for C2 at a concrete input: `/w/a.txt` already seen, one
further cycle in which the file is listed, stable, readable and the
webhook would answer 200. -/
theorem seen_path_never_redelivered_witness :
    "/w/a.txt" ∈ (St.mk ["/w/a.txt"] []).seen ∧
      ((∀ tr ∈ (run cfg0 [envOK] (St.mk ["/w/a.txt"] [])).traces, ∀ ev ∈ tr,
          joinPath cfg0.dir ev.fn = "/w/a.txt" → ev.outcome.isPreSkip = true) ∧
        "/w/a.txt" ∈ ((run cfg0 [envOK] (St.mk ["/w/a.txt"] [])).final).seen) :=
  ⟨by decide,
   seen_path_never_redelivered cfg0 [envOK] (St.mk ["/w/a.txt"] []) "/w/a.txt"
     (by decide)⟩

/-- Claim C3: a candidate whose POST raises (transport exception) or gets a
status outside [200, 300) leaves the state untouched: its path is not
added to the seen set, nothing is archived, the outcome records only the
failed POST, and an identical later cycle re-attempts it (it is not
pre-skipped). -/
theorem post_failure_leaves_candidate_retriable (cfg : Config)
    (env : CycleEnv) (st : St) (fn : String) (s : Nat) (tr : String)
    (hp : ¬ env.inProcessed (joinPath cfg.dir fn) = some true)
    (hs : joinPath cfg.dir fn ∉ st.seen)
    (hprobe : env.probe (joinPath cfg.dir fn) = some (s, s))
    (hread : readText env (joinPath cfg.dir fn) = some tr)
    (hpost : env.post (joinPath cfg.dir fn)
        (mkPayload cfg.stage (splitextBase fn) tr) = none ∨
      ∃ code, env.post (joinPath cfg.dir fn)
          (mkPayload cfg.stage (splitextBase fn) tr) = some code ∧
        is2xx code = false) :
    (processCandidate cfg env st fn).2 = st ∧
      joinPath cfg.dir fn ∉ ((processCandidate cfg env st fn).2).seen ∧
      ((processCandidate cfg env st fn).1.outcome = .transportError ∨
        ∃ code, (processCandidate cfg env st fn).1.outcome = .non2xx code) ∧
      (processCandidate cfg env ((processCandidate cfg env st fn).2)
        fn).1.outcome.isPreSkip = false := by
  rcases hpost with hpo | ⟨code, hpo, h2⟩
  · have hr := pc_transport_eq cfg env st fn s tr hp hs hprobe hread hpo
    refine ⟨by rw [hr], by rw [hr]; exact hs, Or.inl (by rw [hr]), ?_⟩
    rw [hr]
    exact pc_not_preskip cfg env st fn hp hs
  · have hr := pc_non2xx_eq cfg env st fn s tr code hp hs hprobe hread hpo h2
    refine ⟨by rw [hr], by rw [hr]; exact hs,
      Or.inr ⟨code, by rw [hr]⟩, ?_⟩
    rw [hr]
    exact pc_not_preskip cfg env st fn hp hs

/-- A cycle identical to `envOK` except that the POST raises a transport
exception. -/
def envPostFail : CycleEnv := { envOK with post := fun _ _ => none }

/-- Witness for C3 at a concrete input: the transport-exception case for
`/w/a.txt`. -/
theorem post_failure_leaves_candidate_retriable_witness :
    (¬ envPostFail.inProcessed (joinPath cfg0.dir "a.txt") = some true) ∧
      joinPath cfg0.dir "a.txt" ∉ (St.mk [] []).seen ∧
      envPostFail.probe (joinPath cfg0.dir "a.txt") = some (5, 5) ∧
      readText envPostFail (joinPath cfg0.dir "a.txt") = some "hi" ∧
      ((processCandidate cfg0 envPostFail (St.mk [] []) "a.txt").2 = St.mk [] [] ∧
        joinPath cfg0.dir "a.txt" ∉
          ((processCandidate cfg0 envPostFail (St.mk [] []) "a.txt").2).seen ∧
        ((processCandidate cfg0 envPostFail (St.mk [] []) "a.txt").1.outcome
            = .transportError ∨
          ∃ code, (processCandidate cfg0 envPostFail (St.mk [] [])
            "a.txt").1.outcome = .non2xx code) ∧
        (processCandidate cfg0 envPostFail
          ((processCandidate cfg0 envPostFail (St.mk [] []) "a.txt").2)
          "a.txt").1.outcome.isPreSkip = false) :=
  ⟨by decide, by decide, by decide, by decide,
   post_failure_leaves_candidate_retriable cfg0 envPostFail (St.mk [] [])
     "a.txt" 5 "hi" (by decide) (by decide) (by decide) (by decide)
     (Or.inl (by decide))⟩

end PMOWatcher
namespace PMOWatcher

/-- Claim C5: when the POST is acknowledged with a 2xx status but the
archive rename raises, the path is nevertheless added to the seen set
(the archive directory is unchanged, the file stays un-archived), and no
later cycle of the same run re-attempts any read, POST or archive for
it. -/
theorem rename_failure_still_marks_seen (cfg : Config) (env : CycleEnv)
    (st : St) (fn : String) (s : Nat) (tr : String) (code : Nat)
    (hp : ¬ env.inProcessed (joinPath cfg.dir fn) = some true)
    (hs : joinPath cfg.dir fn ∉ st.seen)
    (hprobe : env.probe (joinPath cfg.dir fn) = some (s, s))
    (hread : readText env (joinPath cfg.dir fn) = some tr)
    (hpost : env.post (joinPath cfg.dir fn)
      (mkPayload cfg.stage (splitextBase fn) tr) = some code)
    (h2 : is2xx code = true)
    (hren : env.renameOk (joinPath cfg.dir fn) = false) :
    (processCandidate cfg env st fn).1.outcome
        = .archiveFailed (destFor cfg fn (env.timeOf (joinPath cfg.dir fn))) ∧
      ((processCandidate cfg env st fn).2).seen
        = joinPath cfg.dir fn :: st.seen ∧
      ((processCandidate cfg env st fn).2).archive = st.archive ∧
      ∀ envs, ∀ tr2 ∈ (run cfg envs ((processCandidate cfg env st fn).2)).traces,
        ∀ ev ∈ tr2, joinPath cfg.dir ev.fn = joinPath cfg.dir fn →
          ev.outcome.isPreSkip = true := by
  have hr := pc_renamefail_eq cfg env st fn s tr code hp hs hprobe hread hpost h2 hren
  refine ⟨by rw [hr], by rw [hr], by rw [hr], ?_⟩
  intro envs
  refine run_skip cfg envs _ _ ?_
  rw [hr]
  exact List.mem_cons_self _ _

/-- A cycle identical to `envOK` except that the archive rename raises. -/
def envRenameFail : CycleEnv := { envOK with renameOk := fun _ => false }

/-- Witness for C5 at a concrete input: 200 response, failing rename. -/
theorem rename_failure_still_marks_seen_witness :
    envRenameFail.post (joinPath cfg0.dir "a.txt")
        (mkPayload cfg0.stage (splitextBase "a.txt") "hi") = some 200 ∧
      is2xx 200 = true ∧
      envRenameFail.renameOk (joinPath cfg0.dir "a.txt") = false ∧
      ((processCandidate cfg0 envRenameFail (St.mk [] []) "a.txt").1.outcome
          = .archiveFailed (destFor cfg0 "a.txt"
              (envRenameFail.timeOf (joinPath cfg0.dir "a.txt"))) ∧
        ((processCandidate cfg0 envRenameFail (St.mk [] []) "a.txt").2).seen
          = joinPath cfg0.dir "a.txt" :: (St.mk [] []).seen ∧
        ((processCandidate cfg0 envRenameFail (St.mk [] []) "a.txt").2).archive
          = (St.mk [] []).archive ∧
        ∀ envs, ∀ tr2 ∈ (run cfg0 envs
            ((processCandidate cfg0 envRenameFail (St.mk [] []) "a.txt").2)).traces,
          ∀ ev ∈ tr2, joinPath cfg0.dir ev.fn = joinPath cfg0.dir "a.txt" →
            ev.outcome.isPreSkip = true) :=
  ⟨by decide, by decide, by decide,
   rename_failure_still_marks_seen cfg0 envRenameFail (St.mk [] []) "a.txt"
     5 "hi" 200 (by decide) (by decide) (by decide) (by decide) (by decide)
     (by decide) (by decide)⟩

/-- Claim C6: a candidate whose content read fails is marked seen at once:
the outcome records only the failed read (no payload, no POST, no
archive — the archive list is unchanged), and no later cycle of the same
run re-attempts anything for it. -/
theorem read_failure_marks_seen_permanently (cfg : Config) (env : CycleEnv)
    (st : St) (fn : String) (s : Nat)
    (hp : ¬ env.inProcessed (joinPath cfg.dir fn) = some true)
    (hs : joinPath cfg.dir fn ∉ st.seen)
    (hprobe : env.probe (joinPath cfg.dir fn) = some (s, s))
    (hread : readText env (joinPath cfg.dir fn) = none) :
    (processCandidate cfg env st fn).1.outcome = .readFailed ∧
      ((processCandidate cfg env st fn).2).seen
        = joinPath cfg.dir fn :: st.seen ∧
      ((processCandidate cfg env st fn).2).archive = st.archive ∧
      ∀ envs, ∀ tr2 ∈ (run cfg envs ((processCandidate cfg env st fn).2)).traces,
        ∀ ev ∈ tr2, joinPath cfg.dir ev.fn = joinPath cfg.dir fn →
          ev.outcome.isPreSkip = true := by
  have hr := pc_readfail_eq cfg env st fn s hp hs hprobe hread
  refine ⟨by rw [hr], by rw [hr], by rw [hr], ?_⟩
  intro envs
  refine run_skip cfg envs _ _ ?_
  rw [hr]
  exact List.mem_cons_self _ _

/-- A cycle identical to `envOK` except that reading the file raises. -/
def envReadFail : CycleEnv := { envOK with bytes := fun _ => none }

/-- Witness for C6 at a concrete input. -/
theorem read_failure_marks_seen_permanently_witness :
    readText envReadFail (joinPath cfg0.dir "a.txt") = none ∧
      ((processCandidate cfg0 envReadFail (St.mk [] []) "a.txt").1.outcome
          = .readFailed ∧
        ((processCandidate cfg0 envReadFail (St.mk [] []) "a.txt").2).seen
          = joinPath cfg0.dir "a.txt" :: (St.mk [] []).seen ∧
        ((processCandidate cfg0 envReadFail (St.mk [] []) "a.txt").2).archive
          = (St.mk [] []).archive ∧
        ∀ envs, ∀ tr2 ∈ (run cfg0 envs
            ((processCandidate cfg0 envReadFail (St.mk [] []) "a.txt").2)).traces,
          ∀ ev ∈ tr2, joinPath cfg0.dir ev.fn = joinPath cfg0.dir "a.txt" →
            ev.outcome.isPreSkip = true) :=
  ⟨by decide,
   read_failure_marks_seen_permanently cfg0 envReadFail (St.mk [] []) "a.txt"
     5 (by decide) (by decide) (by decide) (by decide)⟩

/-- Claim C7: a candidate whose two size probes disagree, or for which a
size probe raises, is skipped for the cycle with the state untouched: it
is not marked seen, nothing further is attempted for it this cycle, and
an identical later cycle re-attempts it (it is not pre-skipped). -/
theorem unstable_candidate_skipped_without_seen (cfg : Config)
    (env : CycleEnv) (st : St) (fn : String)
    (hp : ¬ env.inProcessed (joinPath cfg.dir fn) = some true)
    (hs : joinPath cfg.dir fn ∉ st.seen)
    (hprobe : env.probe (joinPath cfg.dir fn) = none ∨
      ∃ s1 s2, env.probe (joinPath cfg.dir fn) = some (s1, s2) ∧ s1 ≠ s2) :
    processCandidate cfg env st fn = (⟨fn, .skippedUnstable⟩, st) ∧
      joinPath cfg.dir fn ∉ ((processCandidate cfg env st fn).2).seen ∧
      (processCandidate cfg env ((processCandidate cfg env st fn).2)
        fn).1.outcome.isPreSkip = false := by
  have hr : processCandidate cfg env st fn = (⟨fn, .skippedUnstable⟩, st) := by
    rcases hprobe with hpo | ⟨s1, s2, hpo, hne⟩
    · exact pc_unstable_none_eq cfg env st fn hp hs hpo
    · exact pc_unstable_diff_eq cfg env st fn s1 s2 hp hs hpo hne
  refine ⟨hr, by rw [hr]; exact hs, ?_⟩
  rw [hr]
  exact pc_not_preskip cfg env st fn hp hs

/-- A cycle identical to `envOK` except that the file grows between the
two size probes. -/
def envUnstable : CycleEnv := { envOK with probe := fun _ => some (5, 9) }

/-- Witness for C7 at a concrete input: sizes 5 and 9 observed. -/
theorem unstable_candidate_skipped_without_seen_witness :
    envUnstable.probe (joinPath cfg0.dir "a.txt") = some (5, 9) ∧
      (processCandidate cfg0 envUnstable (St.mk [] []) "a.txt"
          = (⟨"a.txt", .skippedUnstable⟩, St.mk [] []) ∧
        joinPath cfg0.dir "a.txt" ∉
          ((processCandidate cfg0 envUnstable (St.mk [] []) "a.txt").2).seen ∧
        (processCandidate cfg0 envUnstable
          ((processCandidate cfg0 envUnstable (St.mk [] []) "a.txt").2)
          "a.txt").1.outcome.isPreSkip = false) :=
  ⟨by decide,
   unstable_candidate_skipped_without_seen cfg0 envUnstable (St.mk [] [])
     "a.txt" (by decide) (by decide)
     (Or.inr ⟨5, 9, by decide, by decide⟩)⟩

end PMOWatcher
namespace PMOWatcher

/-- Claim C8: in a cycle whose listing succeeds (with distinct entries, as
a directory listing is), the processed sequence is exactly the `.txt`
entries (case-insensitive suffix check) in code-point lexicographic
order; of those, the entries that go on to the stability probe and
delivery are exactly the ones not excluded by the archive-subdirectory
containment check (a check failure does not exclude) and not already in
the seen set. -/
theorem detector_candidate_sequence (cfg : Config) (env : CycleEnv)
    (st : St) (fs : List String) (r : CycleResult)
    (hl : env.listing = .ok fs) (hnd : fs.Nodup)
    (hr : runCycle cfg env st = .ok r) :
    r.events.map Event.fn = sortNames (fs.filter txtFilter) ∧
      (r.events.filter (fun ev => !ev.outcome.isPreSkip)).map Event.fn
        = (sortNames (fs.filter txtFilter)).filter (fun fn =>
            !(decide (env.inProcessed (joinPath cfg.dir fn) = some true)) &&
            !(decide (joinPath cfg.dir fn ∈ st.seen))) ∧
      List.Perm (sortNames (fs.filter txtFilter)) (fs.filter txtFilter) ∧
      (sortNames (fs.filter txtFilter)).Pairwise
        (fun a b => strLeb a b = true) := by
  have hcf : cycleFilesOf env = fs.filter txtFilter := by
    unfold cycleFilesOf
    rw [hl]
  have hok := runCycle_ok cfg env st r hr
  have hnd2 : (sortNames (fs.filter txtFilter)).Nodup :=
    sortNames_nodup _ (List.Nodup.filter _ hnd)
  refine ⟨?_, ?_, sortNames_perm _, sortNames_pairwise _⟩
  · rw [hok.1, hcf]
    exact runFiles_map_fn cfg env _ st
  · rw [hok.1, hcf]
    exact runFiles_reach cfg env _ st st.seen hnd2 (fun fn _ => Iff.rfl)

end PMOWatcher
namespace PMOWatcher

/-- A cycle listing a mix of `.txt` and non-`.txt` entries, one of them
already seen. -/
def envList : CycleEnv := { envOK with
  listing := .ok ["b.txt", "notes.md", "a.TXT", "seen.txt"] }

/-- The concrete result of running `envList` against a state that has
already seen `/w/seen.txt`. -/
def cycleResList : CycleResult :=
  ⟨false,
   [⟨"a.TXT", .archived "/w/processed/a.20240115T093000Z.txt" false⟩,
    ⟨"b.txt", .archived "/w/processed/b.20240115T093000Z.txt" false⟩,
    ⟨"seen.txt", .skippedSeen⟩],
   ⟨["/w/b.txt", "/w/a.TXT", "/w/seen.txt"],
    ["/w/processed/b.20240115T093000Z.txt",
     "/w/processed/a.20240115T093000Z.txt"]⟩⟩

/-- Witness for C8 at a concrete input: four entries, one filtered out by
extension, one suppressed by the seen set. -/
theorem detector_candidate_sequence_witness :
    envList.listing = .ok ["b.txt", "notes.md", "a.TXT", "seen.txt"] ∧
      (["b.txt", "notes.md", "a.TXT", "seen.txt"] : List String).Nodup ∧
      runCycle cfg0 envList (St.mk ["/w/seen.txt"] []) = .ok cycleResList ∧
      (cycleResList.events.map Event.fn
          = sortNames ((["b.txt", "notes.md", "a.TXT", "seen.txt"] :
              List String).filter txtFilter) ∧
        (cycleResList.events.filter
            (fun ev => !ev.outcome.isPreSkip)).map Event.fn
          = (sortNames ((["b.txt", "notes.md", "a.TXT", "seen.txt"] :
              List String).filter txtFilter)).filter (fun fn =>
              !(decide (envList.inProcessed (joinPath cfg0.dir fn) = some true)) &&
              !(decide (joinPath cfg0.dir fn ∈ (St.mk ["/w/seen.txt"] []).seen))) ∧
        List.Perm (sortNames ((["b.txt", "notes.md", "a.TXT", "seen.txt"] :
            List String).filter txtFilter))
          ((["b.txt", "notes.md", "a.TXT", "seen.txt"] :
            List String).filter txtFilter) ∧
        (sortNames ((["b.txt", "notes.md", "a.TXT", "seen.txt"] :
            List String).filter txtFilter)).Pairwise
          (fun a b => strLeb a b = true)) :=
  ⟨by decide, by decide, by decide,
   detector_candidate_sequence cfg0 envList (St.mk ["/w/seen.txt"] [])
     ["b.txt", "notes.md", "a.TXT", "seen.txt"] cycleResList
     (by decide) (by decide) (by decide)⟩

end PMOWatcher
namespace PMOWatcher

/-- Claim C9: a directory entry whose name ends in `.txt` but which cannot
be read as a file (for example a subdirectory named `notes.txt`, whose
size probes succeed and agree but whose open raises) passes the extension
filter, reaches the read, fails there, and is permanently added to the
seen set: nothing is delivered for it then or in any later cycle, and no
error surfaces. -/
theorem txt_named_unreadable_entry_skipped (cfg : Config) (env : CycleEnv)
    (st : St) (fn : String) (s : Nat)
    (htxt : txtFilter fn = true)
    (hp : ¬ env.inProcessed (joinPath cfg.dir fn) = some true)
    (hs : joinPath cfg.dir fn ∉ st.seen)
    (hprobe : env.probe (joinPath cfg.dir fn) = some (s, s))
    (hread : readText env (joinPath cfg.dir fn) = none) :
    (∀ fs : List String, fn ∈ fs → fn ∈ fs.filter txtFilter) ∧
      processCandidate cfg env st fn
        = (⟨fn, .readFailed⟩, { st with seen := joinPath cfg.dir fn :: st.seen }) ∧
      joinPath cfg.dir fn ∈ ((processCandidate cfg env st fn).2).seen ∧
      ∀ envs, ∀ tr2 ∈ (run cfg envs ((processCandidate cfg env st fn).2)).traces,
        ∀ ev ∈ tr2, joinPath cfg.dir ev.fn = joinPath cfg.dir fn →
          ev.outcome.isPreSkip = true := by
  have hr := pc_readfail_eq cfg env st fn s hp hs hprobe hread
  refine ⟨fun fs hfs => List.mem_filter.mpr ⟨hfs, htxt⟩, hr, ?_, ?_⟩
  · rw [hr]
    exact List.mem_cons_self _ _
  · intro envs
    refine run_skip cfg envs _ _ ?_
    rw [hr]
    exact List.mem_cons_self _ _

/-- A cycle in which `notes.txt` is a subdirectory: the size probes
succeed (a directory has a size) and agree, but opening it for reading
raises `IsADirectoryError`. -/
def envDirEntry : CycleEnv := { envOK with
  listing := .ok ["notes.txt"]
  probe := fun _ => some (96, 96)
  bytes := fun _ => none }

/-- Witness for C9 at a concrete input: the subdirectory `notes.txt`. -/
theorem txt_named_unreadable_entry_skipped_witness :
    txtFilter "notes.txt" = true ∧
      readText envDirEntry (joinPath cfg0.dir "notes.txt") = none ∧
      ((∀ fs : List String, "notes.txt" ∈ fs →
          "notes.txt" ∈ fs.filter txtFilter) ∧
        processCandidate cfg0 envDirEntry (St.mk [] []) "notes.txt"
          = (⟨"notes.txt", .readFailed⟩,
             { St.mk [] [] with
                seen := joinPath cfg0.dir "notes.txt" :: (St.mk [] []).seen }) ∧
        joinPath cfg0.dir "notes.txt" ∈
          ((processCandidate cfg0 envDirEntry (St.mk [] []) "notes.txt").2).seen ∧
        ∀ envs, ∀ tr2 ∈ (run cfg0 envs
            ((processCandidate cfg0 envDirEntry (St.mk [] []) "notes.txt").2)).traces,
          ∀ ev ∈ tr2, joinPath cfg0.dir ev.fn = joinPath cfg0.dir "notes.txt" →
            ev.outcome.isPreSkip = true) :=
  ⟨by decide, by decide,
   txt_named_unreadable_entry_skipped cfg0 envDirEntry (St.mk [] [])
     "notes.txt" 96 (by decide) (by decide) (by decide) (by decide)
     (by decide)⟩

/-- Claim C10: a stable candidate whose bytes are not valid UTF-8 fails
the decoding read, so its path is added to the seen set and its content
is never delivered in that run. -/
theorem invalid_utf8_candidate_never_delivered (cfg : Config)
    (env : CycleEnv) (st : St) (fn : String) (s : Nat) (bs : List Nat)
    (hb : env.bytes (joinPath cfg.dir fn) = some bs)
    (hdec : decodeUtf8 bs = none)
    (hp : ¬ env.inProcessed (joinPath cfg.dir fn) = some true)
    (hs : joinPath cfg.dir fn ∉ st.seen)
    (hprobe : env.probe (joinPath cfg.dir fn) = some (s, s)) :
    readText env (joinPath cfg.dir fn) = none ∧
      (processCandidate cfg env st fn).1.outcome = .readFailed ∧
      ((processCandidate cfg env st fn).2).seen
        = joinPath cfg.dir fn :: st.seen ∧
      ∀ envs, ∀ tr2 ∈ (run cfg envs ((processCandidate cfg env st fn).2)).traces,
        ∀ ev ∈ tr2, joinPath cfg.dir ev.fn = joinPath cfg.dir fn →
          ev.outcome.isPreSkip = true := by
  have hrt : readText env (joinPath cfg.dir fn) = none := by
    simp only [readText, hb, hdec]
  have hr := pc_readfail_eq cfg env st fn s hp hs hprobe hrt
  refine ⟨hrt, by rw [hr], by rw [hr], ?_⟩
  intro envs
  refine run_skip cfg envs _ _ ?_
  rw [hr]
  exact List.mem_cons_self _ _

/-- A cycle in which `/w/a.txt` holds the single byte 0xFF, which is not
valid UTF-8. -/
def envBadBytes : CycleEnv := { envOK with bytes := fun _ => some [255] }

/-- Witness for C10 at a concrete input: the byte 0xFF. -/
theorem invalid_utf8_candidate_never_delivered_witness :
    envBadBytes.bytes (joinPath cfg0.dir "a.txt") = some [255] ∧
      decodeUtf8 [255] = none ∧
      (readText envBadBytes (joinPath cfg0.dir "a.txt") = none ∧
        (processCandidate cfg0 envBadBytes (St.mk [] []) "a.txt").1.outcome
          = .readFailed ∧
        ((processCandidate cfg0 envBadBytes (St.mk [] []) "a.txt").2).seen
          = joinPath cfg0.dir "a.txt" :: (St.mk [] []).seen ∧
        ∀ envs, ∀ tr2 ∈ (run cfg0 envs
            ((processCandidate cfg0 envBadBytes (St.mk [] []) "a.txt").2)).traces,
          ∀ ev ∈ tr2, joinPath cfg0.dir ev.fn = joinPath cfg0.dir "a.txt" →
            ev.outcome.isPreSkip = true) :=
  ⟨by decide, by decide,
   invalid_utf8_candidate_never_delivered cfg0 envBadBytes (St.mk [] [])
     "a.txt" 5 [255] (by decide) (by decide) (by decide) (by decide)
     (by decide)⟩

end PMOWatcher
namespace PMOWatcher

/-- A cycle in which both `a.TXT` and `a.txt` — distinct files with the
same derived meeting_id `a` — are listed, stable and readable, the
webhook answers 200 for both, both renames succeed, and both deliveries
fall in the same UTC second. -/
def envSameSecond : CycleEnv := { envOK with
  listing := .ok ["a.txt", "a.TXT"] }

/-- Counterexample to claim C1 as stated: in one cycle the two files
`a.TXT` and `a.txt` (meeting_id `a` for both) are delivered within the
same UTC second, so both archive renames target the identical destination
`/w/processed/a.20240115T093000Z.txt`; the second rename finds that name
already present in the archive (`overwrote = true`), replacing the copy
archived moments earlier — the timestamp suffix alone does not prevent
every overwrite of a prior archive of the same meeting_id. -/
theorem archive_overwrite_counterexample :
    runCycle cfg0 envSameSecond (St.mk [] []) = .ok
      ⟨false,
       [⟨"a.TXT", .archived "/w/processed/a.20240115T093000Z.txt" false⟩,
        ⟨"a.txt", .archived "/w/processed/a.20240115T093000Z.txt" true⟩],
       ⟨["/w/a.txt", "/w/a.TXT"],
        ["/w/processed/a.20240115T093000Z.txt",
         "/w/processed/a.20240115T093000Z.txt"]⟩⟩ := by decide

/-- Claim C1 (amended): a successful delivery archives the file under the
destination `<processed>/<meeting_id>.<UTC timestamp>.txt`, the timestamp
being the second-resolution `%Y%m%dT%H%M%SZ` rendering of the wall clock;
destinations for the same meeting_id with different timestamp strings
never collide, so a delivery at a fresh timestamp never overwrites a
previously archived copy — only two deliveries of the same meeting_id
within the same UTC second share a destination and overwrite. -/
theorem archive_destination_naming (cfg : Config) (env : CycleEnv)
    (st : St) (fn : String) (s : Nat) (tr : String) (code : Nat)
    (hp : ¬ env.inProcessed (joinPath cfg.dir fn) = some true)
    (hs : joinPath cfg.dir fn ∉ st.seen)
    (hprobe : env.probe (joinPath cfg.dir fn) = some (s, s))
    (hread : readText env (joinPath cfg.dir fn) = some tr)
    (hpost : env.post (joinPath cfg.dir fn)
      (mkPayload cfg.stage (splitextBase fn) tr) = some code)
    (h2 : is2xx code = true)
    (hren : env.renameOk (joinPath cfg.dir fn) = true)
    (hfresh : mkDest cfg.processedDir (splitextBase fn)
      (formatTs (env.timeOf (joinPath cfg.dir fn))) ∉ st.archive) :
    (processCandidate cfg env st fn).1.outcome
        = .archived (mkDest cfg.processedDir (splitextBase fn)
            (formatTs (env.timeOf (joinPath cfg.dir fn)))) false ∧
      ((processCandidate cfg env st fn).2).archive
        = mkDest cfg.processedDir (splitextBase fn)
            (formatTs (env.timeOf (joinPath cfg.dir fn))) :: st.archive ∧
      ∀ p m ts1 ts2 : String, ts1 ≠ ts2 → mkDest p m ts1 ≠ mkDest p m ts2 := by
  have hr := pc_archived_eq cfg env st fn s tr code hp hs hprobe hread hpost h2 hren
  have hfr : (decide (destFor cfg fn (env.timeOf (joinPath cfg.dir fn))
      ∈ st.archive)) = false := decide_eq_false hfresh
  simp only [destFor] at hfr
  refine ⟨?_, by rw [hr]; rfl, ?_⟩
  · rw [hr]
    simp only [destFor, hfr]
  · intro p m ts1 ts2 hne hc
    exact hne (mkDest_ts_inj p m ts1 ts2 hc)

/-- Witness for the amended C1 at a concrete input: a single successful
delivery against an empty archive. -/
theorem archive_destination_naming_witness :
    is2xx 200 = true ∧
      mkDest cfg0.processedDir (splitextBase "a.txt")
          (formatTs (envOK.timeOf (joinPath cfg0.dir "a.txt")))
        ∉ (St.mk [] []).archive ∧
      ((processCandidate cfg0 envOK (St.mk [] []) "a.txt").1.outcome
          = .archived (mkDest cfg0.processedDir (splitextBase "a.txt")
              (formatTs (envOK.timeOf (joinPath cfg0.dir "a.txt")))) false ∧
        ((processCandidate cfg0 envOK (St.mk [] []) "a.txt").2).archive
          = mkDest cfg0.processedDir (splitextBase "a.txt")
              (formatTs (envOK.timeOf (joinPath cfg0.dir "a.txt")))
            :: (St.mk [] []).archive ∧
        ∀ p m ts1 ts2 : String, ts1 ≠ ts2 → mkDest p m ts1 ≠ mkDest p m ts2) :=
  ⟨by decide, by decide,
   archive_destination_naming cfg0 envOK (St.mk [] []) "a.txt" 5 "hi" 200
     (by decide) (by decide) (by decide) (by decide) (by decide) (by decide)
     (by decide) (by decide)⟩

/-- A cycle whose directory listing raises an exception other than
`FileNotFoundError` (for example `PermissionError`). -/
def envListErr : CycleEnv := { envOK with listing := .error .otherError }

/-- Counterexample to claim C4 as stated: a listing exception other than
`FileNotFoundError` is not caught — the run records no further cycle (the
cycle with `envOK` after the failing one never executes) and the error
surfaces to the caller, terminating the polling loop. -/
theorem listing_error_terminates_counterexample :
    run cfg0 [envListErr, envOK] (St.mk [] [])
      = ⟨[], St.mk [] [], some .otherError⟩ := by decide

/-- Claim C4 (amended): when listing the watch root raises
`FileNotFoundError` (the root is missing), the root is recreated and the
cycle completes normally with an empty candidate sequence and the state
untouched; a listing error of any other kind is not caught and ends the
polling loop, surfacing to the caller. -/
theorem missing_watch_root_recreated (cfg : Config) (env : CycleEnv)
    (st : St) (h : env.listing = .error .fileNotFound) :
    runCycle cfg env st = .ok ⟨true, [], st⟩ := by
  unfold runCycle listCycleFiles
  rw [h]
  rfl

/-- A cycle whose directory listing raises `FileNotFoundError`. -/
def envRootGone : CycleEnv := { envOK with listing := .error .fileNotFound }

/-- Witness for the amended C4 at a concrete input. -/
theorem missing_watch_root_recreated_witness :
    envRootGone.listing = .error .fileNotFound ∧
      runCycle cfg0 envRootGone (St.mk ["/w/x.txt"] [])
        = .ok ⟨true, [], St.mk ["/w/x.txt"] []⟩ :=
  ⟨by decide,
   missing_watch_root_recreated cfg0 envRootGone (St.mk ["/w/x.txt"] [])
     (by decide)⟩

end PMOWatcher
